import Mathlib

/-!
# Verification of the LTD SaaS Ingestor backend (`main.py`)

A shallow embedding of the ingestion pipeline implemented in `main.py`:
reference parsing (`parse_repo_url`), language classification
(`detect_language`), header construction (`github_headers`) and the
sync orchestrator (`sync_repository`).  Python strings are modelled as
`String`/`List Char`; Python's `str.split`, `str.rstrip`, `str.endswith`,
`str.startswith` and truthiness-based `or` are modelled by executable
functions below.  The remote HTTP world and the document store are
modelled as an explicit environment plus an event trace: each
`requests.get` becomes an `Event.remoteCall` recording the URL and the
headers, and each `create_document` becomes an `Event.persist` recording
the collection name and the document value.
-/

/-- Python's `str.split(sep)` on character lists, with explicit fuel so the
definition is structurally recursive and kernel-computable.  When the fuel
is at least `s.length + 1` the fuel never runs out.  Mirrors CPython:
`"".split(sep) = [""]`, matches are found left to right and are
non-overlapping. -/
def strSplitF : Nat → List Char → List Char → List (List Char)
  | 0, _, s => [s]
  | fuel + 1, sep, s =>
    match sep with
    | [] => [s]
    | _ :: _ =>
      if sep.isPrefixOf s then
        [] :: strSplitF fuel sep (s.drop sep.length)
      else
        match s with
        | [] => [[]]
        | c :: rest => consHead c (strSplitF fuel sep rest)
where
  /-- Prepend a character to the first piece of a split result. -/
  consHead (c : Char) : List (List Char) → List (List Char)
    | [] => [[c]]
    | p :: ps => (c :: p) :: ps

/-- Python's `str.split(sep)` (for a fixed separator string, as used in
`parse_repo_url`). -/
def strSplit (sep s : List Char) : List (List Char) :=
  strSplitF (s.length + 1) sep s

/-- Python's `str.rstrip("/")`: remove all trailing occurrences of `c`. -/
def pyRstrip (c : Char) (s : List Char) : List Char :=
  ((s.reverse).dropWhile (fun d => d == c)).reverse

/-- Python's `a or b` for an optional string `a` and optional string `b`:
`a` wins exactly when it is a non-empty string (truthy); otherwise the
result is `b` as-is. -/
def pyOrOpt (a b : Option String) : Option String :=
  match a with
  | some s => if s = "" then b else some s
  | none => b

/-- Python's `a or d` for an optional string `a` and a (string) default
`d`: the result is `a`'s value when that value is non-empty (truthy),
and `d` otherwise. -/
def pyOrDefault (a : Option String) (d : String) : String :=
  match a with
  | some s => if s = "" then d else s
  | none => d

/-- The error raised by the endpoints: FastAPI's
`HTTPException(status_code=..., detail=...)`. -/
structure HTTPError where
  status_code : Nat
  detail : String
deriving Repr, DecidableEq

/-- The slash-delimited segment list computed by `parse_repo_url` in
`main.py` before the two-segment check:
if the locator starts with `"http"`, strip trailing slashes, split on the
literal `"github.com/"`, take the last piece and split it on `"/"`;
otherwise split the whole locator on `"/"`. -/
def repoUrlParts (repo_url : String) : List (List Char) :=
  if "http".data.isPrefixOf repo_url.data then
    strSplit ['/'] ((strSplit "github.com/".data (pyRstrip '/' repo_url.data)).getLastD [])
  else
    strSplit ['/'] repo_url.data

/-- `parse_repo_url` from `main.py`: raises HTTP 400
("Invalid GitHub repository URL") when fewer than two segments are
obtained, otherwise returns the first two segments as `(owner, name)`. -/
def parse_repo_url (repo_url : String) : Except HTTPError (String × String) :=
  let parts := repoUrlParts repo_url
  if parts.length < 2 then
    .error ⟨400, "Invalid GitHub repository URL"⟩
  else
    match parts with
    | p0 :: p1 :: _ => .ok (⟨p0⟩, ⟨p1⟩)
    | _ => .error ⟨400, "Invalid GitHub repository URL"⟩

/-- The `EXT_LANG` ordered mapping from `main.py` (Python dicts iterate in
insertion order). -/
def EXT_LANG : List (String × String) :=
  [(".py", "python"),
   (".js", "javascript"),
   (".jsx", "javascript"),
   (".ts", "typescript"),
   (".tsx", "typescript"),
   (".json", "json"),
   (".md", "markdown"),
   (".yml", "yaml"),
   (".yaml", "yaml"),
   (".html", "html"),
   (".css", "css"),
   (".env", "env")]

/-- The `for ext, lang in EXT_LANG.items()` loop of `detect_language`:
return the first language whose extension is a suffix of the lowercased
path.  `Char.toLower` coincides with Python's `str.lower` on the ASCII
extensions involved. -/
def detectFrom (pathLower : List Char) : List (String × String) → Option String
  | [] => none
  | (ext, lang) :: rest =>
    if ext.data.isSuffixOf pathLower then some lang else detectFrom pathLower rest

/-- `detect_language` from `main.py`. -/
def detect_language (path : String) : Option String :=
  detectFrom (path.data.map Char.toLower) EXT_LANG

/-- `github_headers` from `main.py`.  `ambient` models
`os.getenv("GITHUB_TOKEN")` (the process-wide credential), `token` the
per-call credential; `token = token or os.getenv(...)` and the `if token:`
truthiness test are modelled by `pyOrOpt` and the emptiness check. -/
def github_headers (ambient : Option String) (token : Option String) :
    List (String × String) :=
  let headers := [("Accept", "application/vnd.github+json")]
  let token := pyOrOpt token ambient
  match token with
  | some t => if t = "" then headers else headers ++ [("Authorization", "Bearer " ++ t)]
  | none => headers

instance {ε α : Type} [DecidableEq ε] [DecidableEq α] : DecidableEq (Except ε α) := fun x y =>
  match x, y with
  | .error a, .error b =>
    if h : a = b then .isTrue (by rw [h]) else .isFalse (fun hh => by cases hh; exact h rfl)
  | .ok a, .ok b =>
    if h : a = b then .isTrue (by rw [h]) else .isFalse (fun hh => by cases hh; exact h rfl)
  | .error _, .ok _ => .isFalse (fun hh => by cases hh)
  | .ok _, .error _ => .isFalse (fun hh => by cases hh)

/-- The request body of `POST /api/sync` (`SyncRequest` in `main.py`). -/
structure SyncRequest where
  repo_url : String
  branch : Option String := none
  token : Option String := none

/-- The JSON body of the repository-metadata response, with the two fields
`sync_repository` reads via `repo_data.get`.  Modelled as named optional
fields (an absent field is `none`), following the loosely-typed JSON
handling of the source. -/
structure RepoMetaJson where
  default_branch : Option String := none
  description : Option String := none
deriving Repr, DecidableEq

/-- One entry of the recursive tree listing, as read by `sync_repository`
(`node.get("type")/"path"/"sha"/"size"`).  Modelled from the spec: the
tree response shape is an ordered sequence of
`{path, kind ∈ {blob, tree}, contentHash, sizeBytes}`, so these fields
are present on every entry. -/
structure TreeNode where
  type : String
  path : String
  sha : String
  size : Nat
deriving Repr, DecidableEq

/-- The JSON body of one blob-content response, as read by
`sync_repository` (`blob.get("encoding")`, `blob.get("content")`).
The encoding tag may be absent (`none`), which the code defaults to
`"utf-8"`. -/
structure BlobJson where
  encoding : Option String := none
  content : String := ""
deriving Repr, DecidableEq

/-- A metadata response: status code, raw body text, parsed JSON. -/
structure MetaResp where
  status_code : Nat
  text : String
  json : RepoMetaJson
deriving Repr, DecidableEq

/-- A tree response.  `json_tree` models `ref_resp.json().get("tree", [])`:
`none` when the `"tree"` key is absent (the code then uses `[]`). -/
structure TreeResp where
  status_code : Nat
  text : String
  json_tree : Option (List TreeNode)
deriving Repr, DecidableEq

/-- A blob-content response. -/
structure BlobResp where
  status_code : Nat
  text : String
  json : BlobJson
deriving Repr, DecidableEq

/-- The ambient world a sync runs against: the process-wide
`GITHUB_TOKEN` environment variable and the upstream's responses.  The
tree response is a function of the ref the tree URL embeds, the blob
response a function of the path and the ref the contents URL embeds. -/
structure GitHubEnv where
  github_token : Option String := none
  metaResp : MetaResp
  treeResp : String → TreeResp
  blobResp : String → String → BlobResp

/-- The `Repo` document persisted to the `"repo"` collection.  Modelled
from the spec: RepositoryRecord carries owner, name, full_name, the
caller-supplied source url, the effective branch and an optional
description (`schemas.py` is not part of the analysed sources). -/
structure Repo where
  owner : String
  name : String
  full_name : String
  url : String
  default_branch : String
  description : Option String
deriving Repr, DecidableEq

/-- The `FileDocument` persisted to the `"filedocument"` collection.
Modelled from the spec: FileRecord carries the repo's full name, path,
content hash, size, kind, the content exactly as received, a content
encoding tag and an optional language (`schemas.py` is not part of the
analysed sources). -/
structure FileDocument where
  repo_full_name : String
  path : String
  sha : String
  size : Nat
  type : String
  content : String
  encoding : String
  language : Option String
deriving Repr, DecidableEq

/-- A document value handed to `create_document`. -/
inductive Doc where
  | repo (r : Repo)
  | file (f : FileDocument)
  | log (full_name : String) (saved : Nat)
deriving Repr, DecidableEq

/-- An observable side effect of `sync_repository`: an outbound
`requests.get` (URL and headers) or a `create_document` write
(collection name and document). -/
inductive Event where
  | remoteCall (url : String) (headers : List (String × String))
  | persist (collection : String) (doc : Doc)
deriving Repr, DecidableEq

/-- The value returned by a successful `sync_repository` call:
`{"status": "ok", "saved": saved, "repo": full_name}`. -/
structure SyncResult where
  status : String
  saved : Nat
  repo : String
deriving Repr, DecidableEq

/-- `GITHUB_API` from `main.py`. -/
def GITHUB_API : String := "https://api.github.com"

/-- The URL of the per-file contents fetch in `sync_repository`. -/
def blobUrl (owner name path br : String) : String :=
  GITHUB_API ++ "/repos/" ++ owner ++ "/" ++ name ++ "/contents/" ++ path ++ "?ref=" ++ br

/-- The URL of the metadata fetch in `sync_repository`. -/
def metaUrl (owner name : String) : String :=
  GITHUB_API ++ "/repos/" ++ owner ++ "/" ++ name

/-- The URL of the recursive tree fetch in `sync_repository`. -/
def treeUrl (owner name br : String) : String :=
  GITHUB_API ++ "/repos/" ++ owner ++ "/" ++ name ++ "/git/trees/" ++ br ++ "?recursive=1"

/-- The `FileDocument` built for one blob node in the loop body of
`sync_repository` (the `encoding == "base64"` conditional of the source
assigns `blob.get("content")` in both branches and is mirrored as such;
`encoding or "utf-8"` is the truthy default). -/
def mkFileDoc (env : GitHubEnv) (full_name br : String) (nd : TreeNode) : FileDocument :=
  let blob := (env.blobResp nd.path br).json
  { repo_full_name := full_name
    path := nd.path
    sha := nd.sha
    size := nd.size
    type := "blob"
    content := if blob.encoding = some "base64" then blob.content else blob.content
    encoding := pyOrDefault blob.encoding "utf-8"
    language := detect_language nd.path }

/-- The `for node in tree:` loop of `sync_repository`: returns the final
`saved` count and the events the loop emits, in order. -/
def syncLoop (env : GitHubEnv) (hdrs : List (String × String))
    (owner name full_name br : String) : List TreeNode → Nat × List Event
  | [] => (0, [])
  | node :: rest =>
    if node.type = "blob" then
      let blob_resp := env.blobResp node.path br
      if blob_resp.status_code ≠ 200 then
        let r := syncLoop env hdrs owner name full_name br rest
        (r.1, Event.remoteCall (blobUrl owner name node.path br) hdrs :: r.2)
      else
        let doc := mkFileDoc env full_name br node
        let r := syncLoop env hdrs owner name full_name br rest
        (r.1 + 1,
         Event.remoteCall (blobUrl owner name node.path br) hdrs ::
           Event.persist "filedocument" (Doc.file doc) :: r.2)
    else
      syncLoop env hdrs owner name full_name br rest

/-- `sync_repository` from `main.py` (`POST /api/sync`), as a function of
the environment and the request, returning the endpoint's result (or the
raised `HTTPException`) together with the ordered trace of side effects. -/
def sync_repository (env : GitHubEnv) (payload : SyncRequest) :
    Except HTTPError SyncResult × List Event :=
  match parse_repo_url payload.repo_url with
  | .error e => (.error e, [])
  | .ok (owner, name) =>
    let full_name := owner ++ "/" ++ name
    let hdrs := github_headers env.github_token payload.token
    let repo_resp := env.metaResp
    let ev1 := [Event.remoteCall (metaUrl owner name) hdrs]
    if repo_resp.status_code ≠ 200 then
      (.error ⟨repo_resp.status_code, repo_resp.text⟩, ev1)
    else
      let repo_data := repo_resp.json
      let default_branch := pyOrDefault payload.branch (repo_data.default_branch.getD "main")
      let ref_resp := env.treeResp default_branch
      let ev2 := ev1 ++ [Event.remoteCall (treeUrl owner name default_branch) hdrs]
      if ref_resp.status_code ≠ 200 then
        (.error ⟨ref_resp.status_code, ref_resp.text⟩, ev2)
      else
        let tree := ref_resp.json_tree.getD []
        let repo_doc : Repo :=
          { owner := owner
            name := name
            full_name := full_name
            url := payload.repo_url
            default_branch := default_branch
            description := repo_data.description }
        let ev3 := ev2 ++ [Event.persist "repo" (Doc.repo repo_doc)]
        let r := syncLoop env hdrs owner name full_name default_branch tree
        (.ok ⟨"ok", r.1, full_name⟩,
         ev3 ++ r.2 ++ [Event.persist "repo_sync_log" (Doc.log full_name r.1)])

/-- The documents written to collection `c` in a trace, in order. -/
def docsIn (c : String) (evs : List Event) : List Doc :=
  evs.filterMap fun e =>
    match e with
    | .persist c' d => if c' = c then some d else none
    | _ => none

/-- The `FileDocument`s written to the `"filedocument"` collection in a
trace, in order. -/
def persistedFiles (evs : List Event) : List FileDocument :=
  evs.filterMap fun e =>
    match e with
    | .persist "filedocument" (Doc.file f) => some f
    | _ => none

/-- The outbound remote calls of a trace, in order, as (url, headers). -/
def callsOf (evs : List Event) : List (String × List (String × String)) :=
  evs.filterMap fun e =>
    match e with
    | .remoteCall u h => some (u, h)
    | _ => none

/-- The events one tree node contributes, as emitted by `syncLoop`. -/
def nodeEvents (env : GitHubEnv) (hdrs : List (String × String))
    (owner name full_name br : String) (nd : TreeNode) : List Event :=
  if nd.type = "blob" then
    if (env.blobResp nd.path br).status_code ≠ 200 then
      [Event.remoteCall (blobUrl owner name nd.path br) hdrs]
    else
      [Event.remoteCall (blobUrl owner name nd.path br) hdrs,
       Event.persist "filedocument" (Doc.file (mkFileDoc env full_name br nd))]
  else []

/-- The events of the whole per-file loop, node by node, in order. -/
def loopEvents (env : GitHubEnv) (hdrs : List (String × String))
    (owner name full_name br : String) : List TreeNode → List Event
  | [] => []
  | nd :: rest =>
    nodeEvents env hdrs owner name full_name br nd ++
      loopEvents env hdrs owner name full_name br rest

/-- The number of blob nodes of a tree whose content fetch succeeds. -/
def savedCount (env : GitHubEnv) (br : String) (tree : List TreeNode) : Nat :=
  ((tree.filter (fun nd => nd.type == "blob")).filter
    (fun nd => (env.blobResp nd.path br).status_code == 200)).length

theorem syncLoop_eq (env : GitHubEnv) (hdrs : List (String × String))
    (owner name full_name br : String) (tree : List TreeNode) :
    syncLoop env hdrs owner name full_name br tree =
      (savedCount env br tree, loopEvents env hdrs owner name full_name br tree) := by
  induction tree with
  | nil => rfl
  | cons nd rest ih =>
    by_cases ht : nd.type = "blob"
    · by_cases hs : (env.blobResp nd.path br).status_code = 200
      · simp [syncLoop, loopEvents, nodeEvents, savedCount, List.filter_cons, ht, hs, ih,
          beq_iff_eq]
      · simp [syncLoop, loopEvents, nodeEvents, savedCount, List.filter_cons, ht, hs, ih,
          beq_iff_eq]
    · simp [syncLoop, loopEvents, nodeEvents, savedCount, List.filter_cons, ht, ih, beq_iff_eq]

theorem docsIn_append (c : String) (a b : List Event) :
    docsIn c (a ++ b) = docsIn c a ++ docsIn c b := by
  simp [docsIn, List.filterMap_append]

theorem docsIn_nil (c : String) : docsIn c [] = [] := rfl

theorem docsIn_cons_call (c u : String) (h : List (String × String)) (evs : List Event) :
    docsIn c (Event.remoteCall u h :: evs) = docsIn c evs := by
  simp [docsIn]

theorem docsIn_cons_persist (c c' : String) (d : Doc) (evs : List Event) :
    docsIn c (Event.persist c' d :: evs) =
      if c' = c then d :: docsIn c evs else docsIn c evs := by
  by_cases h : c' = c <;> simp [docsIn, h]

theorem persistedFiles_append (a b : List Event) :
    persistedFiles (a ++ b) = persistedFiles a ++ persistedFiles b := by
  simp [persistedFiles, List.filterMap_append]

theorem callsOf_append (a b : List Event) :
    callsOf (a ++ b) = callsOf a ++ callsOf b := by
  simp [callsOf, List.filterMap_append]

theorem docsIn_loopEvents_repo (env : GitHubEnv) (hdrs : List (String × String))
    (owner name full_name br : String) (tree : List TreeNode) :
    docsIn "repo" (loopEvents env hdrs owner name full_name br tree) = [] := by
  induction tree with
  | nil => rfl
  | cons nd rest ih =>
    rw [loopEvents, docsIn_append, ih]
    by_cases ht : nd.type = "blob"
    · by_cases hs : (env.blobResp nd.path br).status_code = 200
      · simp [nodeEvents, ht, hs, docsIn]
      · simp [nodeEvents, ht, hs, docsIn]
    · simp [nodeEvents, ht, docsIn]

theorem docsIn_loopEvents_log (env : GitHubEnv) (hdrs : List (String × String))
    (owner name full_name br : String) (tree : List TreeNode) :
    docsIn "repo_sync_log" (loopEvents env hdrs owner name full_name br tree) = [] := by
  induction tree with
  | nil => rfl
  | cons nd rest ih =>
    rw [loopEvents, docsIn_append, ih]
    by_cases ht : nd.type = "blob"
    · by_cases hs : (env.blobResp nd.path br).status_code = 200
      · simp [nodeEvents, ht, hs, docsIn]
      · simp [nodeEvents, ht, hs, docsIn]
    · simp [nodeEvents, ht, docsIn]

theorem persistedFiles_loopEvents (env : GitHubEnv) (hdrs : List (String × String))
    (owner name full_name br : String) (tree : List TreeNode) :
    persistedFiles (loopEvents env hdrs owner name full_name br tree) =
      ((tree.filter (fun nd => nd.type == "blob")).filter
        (fun nd => (env.blobResp nd.path br).status_code == 200)).map
        (mkFileDoc env full_name br) := by
  induction tree with
  | nil => rfl
  | cons nd rest ih =>
    rw [loopEvents, persistedFiles_append, ih]
    by_cases ht : nd.type = "blob"
    · by_cases hs : (env.blobResp nd.path br).status_code = 200
      · simp [nodeEvents, ht, hs, persistedFiles, List.filter_cons, beq_iff_eq]
      · simp [nodeEvents, ht, hs, persistedFiles, List.filter_cons, beq_iff_eq]
    · simp [nodeEvents, ht, persistedFiles, List.filter_cons, beq_iff_eq]

theorem docsIn_filedocument_loopEvents (env : GitHubEnv) (hdrs : List (String × String))
    (owner name full_name br : String) (tree : List TreeNode) :
    docsIn "filedocument" (loopEvents env hdrs owner name full_name br tree) =
      ((tree.filter (fun nd => nd.type == "blob")).filter
        (fun nd => (env.blobResp nd.path br).status_code == 200)).map
        (fun nd => Doc.file (mkFileDoc env full_name br nd)) := by
  induction tree with
  | nil => rfl
  | cons nd rest ih =>
    rw [loopEvents, docsIn_append, ih]
    by_cases ht : nd.type = "blob"
    · by_cases hs : (env.blobResp nd.path br).status_code = 200
      · simp [nodeEvents, ht, hs, docsIn, List.filter_cons, beq_iff_eq]
      · simp [nodeEvents, ht, hs, docsIn, List.filter_cons, beq_iff_eq]
    · simp [nodeEvents, ht, docsIn, List.filter_cons, beq_iff_eq]

theorem callsOf_loopEvents (env : GitHubEnv) (hdrs : List (String × String))
    (owner name full_name br : String) (tree : List TreeNode) :
    callsOf (loopEvents env hdrs owner name full_name br tree) =
      (tree.filter (fun nd => nd.type == "blob")).map
        (fun nd => (blobUrl owner name nd.path br, hdrs)) := by
  induction tree with
  | nil => rfl
  | cons nd rest ih =>
    rw [loopEvents, callsOf_append, ih]
    by_cases ht : nd.type = "blob"
    · by_cases hs : (env.blobResp nd.path br).status_code = 200
      · simp [nodeEvents, ht, hs, callsOf, List.filter_cons, beq_iff_eq]
      · simp [nodeEvents, ht, hs, callsOf, List.filter_cons, beq_iff_eq]
    · simp [nodeEvents, ht, callsOf, List.filter_cons, beq_iff_eq]

/-- Unfolding of a fully successful sync: the result and the complete
event trace. -/
theorem sync_success_eq (env : GitHubEnv) (payload : SyncRequest) (owner name : String)
    (hp : parse_repo_url payload.repo_url = .ok (owner, name))
    (hm : env.metaResp.status_code = 200)
    (ht : (env.treeResp
        (pyOrDefault payload.branch (env.metaResp.json.default_branch.getD "main"))).status_code
        = 200) :
    sync_repository env payload =
      (Except.ok ⟨"ok",
          savedCount env
            (pyOrDefault payload.branch (env.metaResp.json.default_branch.getD "main"))
            ((env.treeResp
                (pyOrDefault payload.branch
                  (env.metaResp.json.default_branch.getD "main"))).json_tree.getD []),
          owner ++ "/" ++ name⟩,
        [Event.remoteCall (metaUrl owner name) (github_headers env.github_token payload.token),
         Event.remoteCall
           (treeUrl owner name
             (pyOrDefault payload.branch (env.metaResp.json.default_branch.getD "main")))
           (github_headers env.github_token payload.token),
         Event.persist "repo" (Doc.repo
           ⟨owner, name, owner ++ "/" ++ name, payload.repo_url,
            pyOrDefault payload.branch (env.metaResp.json.default_branch.getD "main"),
            env.metaResp.json.description⟩)]
        ++ loopEvents env (github_headers env.github_token payload.token) owner name
            (owner ++ "/" ++ name)
            (pyOrDefault payload.branch (env.metaResp.json.default_branch.getD "main"))
            ((env.treeResp
                (pyOrDefault payload.branch
                  (env.metaResp.json.default_branch.getD "main"))).json_tree.getD [])
        ++ [Event.persist "repo_sync_log" (Doc.log (owner ++ "/" ++ name)
            (savedCount env
              (pyOrDefault payload.branch (env.metaResp.json.default_branch.getD "main"))
              ((env.treeResp
                  (pyOrDefault payload.branch
                    (env.metaResp.json.default_branch.getD "main"))).json_tree.getD [])))]) := by
  simp only [sync_repository, hp]
  simp [hm, ht, syncLoop_eq]

/-- Unfolding of a sync whose locator fails to parse. -/
theorem sync_parse_fail_eq (env : GitHubEnv) (payload : SyncRequest) (e : HTTPError)
    (hp : parse_repo_url payload.repo_url = .error e) :
    sync_repository env payload = (.error e, []) := by
  simp [sync_repository, hp]

/-- Unfolding of a sync whose metadata fetch returns a non-200 status. -/
theorem sync_meta_fail_eq (env : GitHubEnv) (payload : SyncRequest) (owner name : String)
    (hp : parse_repo_url payload.repo_url = .ok (owner, name))
    (hm : env.metaResp.status_code ≠ 200) :
    sync_repository env payload =
      (.error ⟨env.metaResp.status_code, env.metaResp.text⟩,
       [Event.remoteCall (metaUrl owner name) (github_headers env.github_token payload.token)]) := by
  simp only [sync_repository, hp]
  simp [hm]

/-- Unfolding of a sync whose tree fetch returns a non-200 status. -/
theorem sync_tree_fail_eq (env : GitHubEnv) (payload : SyncRequest) (owner name : String)
    (hp : parse_repo_url payload.repo_url = .ok (owner, name))
    (hm : env.metaResp.status_code = 200)
    (ht : (env.treeResp
        (pyOrDefault payload.branch (env.metaResp.json.default_branch.getD "main"))).status_code
        ≠ 200) :
    sync_repository env payload =
      (.error ⟨(env.treeResp
          (pyOrDefault payload.branch (env.metaResp.json.default_branch.getD "main"))).status_code,
        (env.treeResp
          (pyOrDefault payload.branch (env.metaResp.json.default_branch.getD "main"))).text⟩,
       [Event.remoteCall (metaUrl owner name) (github_headers env.github_token payload.token),
        Event.remoteCall
          (treeUrl owner name
            (pyOrDefault payload.branch (env.metaResp.json.default_branch.getD "main")))
          (github_headers env.github_token payload.token)]) := by
  simp only [sync_repository, hp]
  simp [hm, ht]

theorem callsOf_nil : callsOf [] = [] := rfl

theorem callsOf_cons_call (u : String) (h : List (String × String)) (evs : List Event) :
    callsOf (Event.remoteCall u h :: evs) = (u, h) :: callsOf evs := by
  simp [callsOf]

theorem callsOf_cons_persist (c : String) (d : Doc) (evs : List Event) :
    callsOf (Event.persist c d :: evs) = callsOf evs := by
  simp [callsOf]

theorem persistedFiles_nil : persistedFiles [] = [] := rfl

theorem persistedFiles_cons_call (u : String) (h : List (String × String)) (evs : List Event) :
    persistedFiles (Event.remoteCall u h :: evs) = persistedFiles evs := by
  simp [persistedFiles]

theorem persistedFiles_cons_repo (d : Doc) (evs : List Event) :
    persistedFiles (Event.persist "repo" d :: evs) = persistedFiles evs := by
  cases d <;> simp [persistedFiles]

theorem persistedFiles_cons_log (d : Doc) (evs : List Event) :
    persistedFiles (Event.persist "repo_sync_log" d :: evs) = persistedFiles evs := by
  cases d <;> simp [persistedFiles]

theorem persistedFiles_cons_file (f : FileDocument) (evs : List Event) :
    persistedFiles (Event.persist "filedocument" (Doc.file f) :: evs) =
      f :: persistedFiles evs := by
  simp [persistedFiles]

/-- Every remote call the per-file loop makes carries the same headers the
loop was given. -/
theorem loopEvents_call_headers (env : GitHubEnv) (hdrs : List (String × String))
    (owner name full_name br : String) (tree : List TreeNode) (u : String)
    (hs : List (String × String))
    (hmem : Event.remoteCall u hs ∈ loopEvents env hdrs owner name full_name br tree) :
    hs = hdrs := by
  induction tree with
  | nil => simp [loopEvents] at hmem
  | cons nd rest ih =>
    rw [loopEvents] at hmem
    rcases List.mem_append.mp hmem with h | h
    · by_cases ht : nd.type = "blob"
      · by_cases hsc : (env.blobResp nd.path br).status_code = 200
        · simp [nodeEvents, ht, hsc] at h
          exact h.2
        · simp [nodeEvents, ht, hsc] at h
          exact h.2
      · simp [nodeEvents, ht] at h
    · exact ih h

/-- A sample tree listing with three blob entries and one directory. -/
def sampleTree : List TreeNode :=
  [⟨"blob", "a.py", "sha1", 10⟩,
   ⟨"tree", "src", "sha2", 0⟩,
   ⟨"blob", "b.js", "sha3", 20⟩,
   ⟨"blob", "README.md", "sha4", 30⟩]

/-- A sample environment: metadata and tree fetches succeed, the content
fetch for `"b.js"` fails with 404, the other two succeed. -/
def sampleEnv : GitHubEnv :=
  { github_token := none
    metaResp := ⟨200, "", ⟨some "main", some "demo repo"⟩⟩
    treeResp := fun _ => ⟨200, "", some sampleTree⟩
    blobResp := fun path _ =>
      if path = "b.js" then ⟨404, "Not Found", ⟨none, ""⟩⟩
      else ⟨200, "", ⟨some "base64", "QUJD"⟩⟩ }

/-- A sample sync request. -/
def samplePayload : SyncRequest := ⟨"acme/widgets", none, none⟩

/-- A sample environment whose tree fetch fails with 404. -/
def sampleEnvTreeFail : GitHubEnv :=
  { github_token := none
    metaResp := ⟨200, "", ⟨some "main", some "demo repo"⟩⟩
    treeResp := fun _ => ⟨404, "Not Found", none⟩
    blobResp := fun _ _ => ⟨200, "", ⟨some "base64", "QUJD"⟩⟩ }

/-- C1: on a sync whose tree listing has N blob entries of which exactly k
content fetches fail, exactly one repository record, N - k file records
and one sync-log entry with saved count N - k are persisted, and the
returned summary's saved field is N - k; no failed fetch surfaces an
error (the result is `ok`) and processing continues past failures. -/
theorem sync_partial_failure_policy (env : GitHubEnv) (payload : SyncRequest)
    (owner name : String)
    (hp : parse_repo_url payload.repo_url = .ok (owner, name))
    (hm : env.metaResp.status_code = 200)
    (ht : (env.treeResp
        (pyOrDefault payload.branch (env.metaResp.json.default_branch.getD "main"))).status_code
        = 200) :
    ∀ br tree blobs failed,
      br = pyOrDefault payload.branch (env.metaResp.json.default_branch.getD "main") →
      tree = (env.treeResp br).json_tree.getD [] →
      blobs = tree.filter (fun nd => nd.type == "blob") →
      failed = blobs.filter (fun nd => !((env.blobResp nd.path br).status_code == 200)) →
      (sync_repository env payload).1 =
        .ok ⟨"ok", blobs.length - failed.length, owner ++ "/" ++ name⟩ ∧
      (docsIn "repo" (sync_repository env payload).2).length = 1 ∧
      (docsIn "filedocument" (sync_repository env payload).2).length =
        blobs.length - failed.length ∧
      docsIn "repo_sync_log" (sync_repository env payload).2 =
        [Doc.log (owner ++ "/" ++ name) (blobs.length - failed.length)] := by
  intro br tree blobs failed hbr htree hblobs hfailed
  have hsaved : savedCount env br tree = blobs.length - failed.length := by
    have hpart := List.length_eq_length_filter_add
      (l := blobs) (fun nd => (env.blobResp nd.path br).status_code == 200)
    rw [savedCount, ← hblobs, hfailed]
    omega
  rw [sync_success_eq env payload owner name hp hm ht]
  rw [← hbr, ← htree]
  refine ⟨by simp [hsaved], ?_, ?_, ?_⟩
  · simp [docsIn_append, docsIn_cons_call, docsIn_cons_persist, docsIn_nil,
      docsIn_loopEvents_repo]
  · have h2 := hsaved
    rw [savedCount] at h2
    simp only [List.filter_filter] at h2
    simp [docsIn_append, docsIn_cons_call, docsIn_cons_persist, docsIn_nil,
      docsIn_filedocument_loopEvents]
    omega
  · simp [docsIn_append, docsIn_cons_call, docsIn_cons_persist, docsIn_nil,
      docsIn_loopEvents_log, hsaved]

/-- C1 witness: in the sample environment the tree lists three blob
entries, exactly one content fetch fails, and the sync persists one
repository record, two file records and a sync log with saved count 2,
returning saved = 2. -/
theorem sync_partial_failure_policy_witness :
    parse_repo_url samplePayload.repo_url = .ok ("acme", "widgets") ∧
    sampleEnv.metaResp.status_code = 200 ∧
    (sampleEnv.treeResp "main").status_code = 200 ∧
    ((sync_repository sampleEnv samplePayload).1 = .ok ⟨"ok", 2, "acme/widgets"⟩ ∧
     (docsIn "repo" (sync_repository sampleEnv samplePayload).2).length = 1 ∧
     (docsIn "filedocument" (sync_repository sampleEnv samplePayload).2).length = 2 ∧
     docsIn "repo_sync_log" (sync_repository sampleEnv samplePayload).2 =
       [Doc.log "acme/widgets" 2]) :=
  ⟨by decide, by decide, by decide, by
    exact sync_partial_failure_policy sampleEnv samplePayload "acme" "widgets"
      (by decide) (by decide) (by decide) "main" sampleTree
      (sampleTree.filter (fun nd => nd.type == "blob"))
      ((sampleTree.filter (fun nd => nd.type == "blob")).filter
        (fun nd => !((sampleEnv.blobResp nd.path "main").status_code == 200)))
      (by decide) (by decide) rfl rfl⟩

/-- C2: when the metadata call or the tree call returns a non-success
status, the sync aborts with an error carrying that upstream status code
and body verbatim, and nothing at all is persisted (the trace contains no
document write for any collection). -/
theorem sync_upstream_failure_aborts (env : GitHubEnv) (payload : SyncRequest)
    (owner name : String)
    (hp : parse_repo_url payload.repo_url = .ok (owner, name)) :
    (env.metaResp.status_code ≠ 200 →
      (sync_repository env payload).1 =
        .error ⟨env.metaResp.status_code, env.metaResp.text⟩ ∧
      ∀ c, docsIn c (sync_repository env payload).2 = []) ∧
    (env.metaResp.status_code = 200 →
      ∀ br, br = pyOrDefault payload.branch (env.metaResp.json.default_branch.getD "main") →
      (env.treeResp br).status_code ≠ 200 →
      (sync_repository env payload).1 =
        .error ⟨(env.treeResp br).status_code, (env.treeResp br).text⟩ ∧
      ∀ c, docsIn c (sync_repository env payload).2 = []) := by
  constructor
  · intro hm
    simp only [sync_repository, hp]
    refine ⟨by simp [hm], ?_⟩
    intro c
    simp [hm, docsIn]
  · intro hm br hbr htree
    simp only [sync_repository, hp]
    rw [← hbr]
    refine ⟨by simp [hm, htree], ?_⟩
    intro c
    simp [hm, htree, docsIn]

/-- C2 witness: a simulated tree-fetch 404 aborts the sync with status 404
and body "Not Found", persisting nothing. -/
theorem sync_upstream_failure_aborts_witness :
    parse_repo_url samplePayload.repo_url = .ok ("acme", "widgets") ∧
    sampleEnvTreeFail.metaResp.status_code = 200 ∧
    (sampleEnvTreeFail.treeResp "main").status_code ≠ 200 ∧
    ((sync_repository sampleEnvTreeFail samplePayload).1 = .error ⟨404, "Not Found"⟩ ∧
     ∀ c, docsIn c (sync_repository sampleEnvTreeFail samplePayload).2 = []) :=
  ⟨by decide, by decide, by decide, by
    have h := (sync_upstream_failure_aborts sampleEnvTreeFail samplePayload "acme" "widgets"
      (by decide)).2 (by decide) "main" (by decide) (by decide)
    exact h⟩

/-- C5: the effective branch — the one stored in the repository record and
embedded in the tree URL and in every per-blob contents URL — is the
caller-supplied override when it is a non-empty string, else the metadata
response's reported default branch when that field is present, else the
hardcoded fallback "main". -/
theorem sync_effective_branch (env : GitHubEnv) (payload : SyncRequest)
    (owner name br : String)
    (hp : parse_repo_url payload.repo_url = .ok (owner, name))
    (hm : env.metaResp.status_code = 200)
    (hbr : br = pyOrDefault payload.branch (env.metaResp.json.default_branch.getD "main"))
    (ht : (env.treeResp br).status_code = 200) :
    (∀ b, payload.branch = some b → b ≠ "" → br = b) ∧
    ((payload.branch = none ∨ payload.branch = some "") →
      ∀ d, env.metaResp.json.default_branch = some d → br = d) ∧
    ((payload.branch = none ∨ payload.branch = some "") →
      env.metaResp.json.default_branch = none → br = "main") ∧
    docsIn "repo" (sync_repository env payload).2 =
      [Doc.repo ⟨owner, name, owner ++ "/" ++ name, payload.repo_url, br,
        env.metaResp.json.description⟩] ∧
    callsOf (sync_repository env payload).2 =
      (metaUrl owner name, github_headers env.github_token payload.token) ::
        (treeUrl owner name br, github_headers env.github_token payload.token) ::
        (((env.treeResp br).json_tree.getD []).filter (fun nd => nd.type == "blob")).map
          (fun nd => (blobUrl owner name nd.path br,
            github_headers env.github_token payload.token)) := by
  subst hbr
  refine ⟨?_, ?_, ?_, ?_, ?_⟩
  · intro b hb hne
    simp [pyOrDefault, hb, hne]
  · rintro (h | h) d hd <;> simp [pyOrDefault, h, hd]
  · rintro (h | h) hd <;> simp [pyOrDefault, h, hd]
  · rw [sync_success_eq env payload owner name hp hm ht]
    simp [docsIn_append, docsIn_cons_call, docsIn_cons_persist, docsIn_nil,
      docsIn_loopEvents_repo]
  · rw [sync_success_eq env payload owner name hp hm ht]
    simp [callsOf_append, callsOf_cons_call, callsOf_cons_persist, callsOf_nil,
      callsOf_loopEvents]

/-- C5 witness: with no branch override, the sample metadata's default
branch "main" is the effective branch stored in the repository record. -/
theorem sync_effective_branch_witness :
    ("main" : String) =
      pyOrDefault samplePayload.branch (sampleEnv.metaResp.json.default_branch.getD "main") ∧
    docsIn "repo" (sync_repository sampleEnv samplePayload).2 =
      [Doc.repo ⟨"acme", "widgets", "acme/widgets", "acme/widgets", "main",
        some "demo repo"⟩] :=
  ⟨by decide, by
    have h := sync_effective_branch sampleEnv samplePayload "acme" "widgets" "main"
      (by decide) (by decide) (by decide) (by decide)
    exact h.2.2.2.1⟩

/-- C6: every persisted file record stores, in its content field, exactly
the content value received from the content-fetch response for the
record's own path at the sync's effective branch (never re-encoded), and
its content-encoding tag is that same response's reported encoding when
that is a non-empty string, "utf-8" when the response reported none; the
tag is never the empty string. -/
theorem filerecord_encoding_invariant (env : GitHubEnv) (payload : SyncRequest)
    (f : FileDocument)
    (hf : f ∈ persistedFiles (sync_repository env payload).2) :
    ∀ br, br = pyOrDefault payload.branch (env.metaResp.json.default_branch.getD "main") →
      f.content = (env.blobResp f.path br).json.content ∧
      f.encoding = pyOrDefault (env.blobResp f.path br).json.encoding "utf-8" ∧
      ((env.blobResp f.path br).json.encoding = none → f.encoding = "utf-8") ∧
      f.encoding ≠ "" := by
  intro br hbr
  subst hbr
  cases hparse : parse_repo_url payload.repo_url with
  | error e =>
    rw [sync_parse_fail_eq env payload e hparse] at hf
    simp [persistedFiles] at hf
  | ok pr =>
    obtain ⟨owner, name⟩ := pr
    by_cases hm : env.metaResp.status_code = 200
    · by_cases ht : (env.treeResp
          (pyOrDefault payload.branch (env.metaResp.json.default_branch.getD "main"))).status_code
          = 200
      · rw [sync_success_eq env payload owner name hparse hm ht] at hf
        simp only [persistedFiles_append, persistedFiles_cons_call, persistedFiles_cons_repo,
          persistedFiles_cons_log, persistedFiles_nil, persistedFiles_loopEvents,
          List.append_nil, List.nil_append] at hf
        obtain ⟨nd, hnd, heq⟩ := List.mem_map.mp hf
        subst heq
        refine ⟨?_, ?_, ?_, ?_⟩
        · simp [mkFileDoc]
        · simp only [mkFileDoc]
        · simp only [mkFileDoc]
          intro h0
          rw [h0]
          rfl
        · simp only [mkFileDoc]
          rcases henc : (env.blobResp nd.path
              (pyOrDefault payload.branch
                (env.metaResp.json.default_branch.getD "main"))).json.encoding with _ | s
          · decide
          · by_cases hse : s = ""
            · rw [hse]
              decide
            · simp [pyOrDefault, hse]
      · rw [sync_tree_fail_eq env payload owner name hparse hm ht] at hf
        simp [persistedFiles] at hf
    · rw [sync_meta_fail_eq env payload owner name hparse hm] at hf
      simp [persistedFiles] at hf

/-- C6 witness: the file record the sample sync persists for "a.py"
carries the content the content fetch for "a.py" at branch "main"
returned, unchanged, with its reported "base64" encoding tag. -/
theorem filerecord_encoding_invariant_witness :
    mkFileDoc sampleEnv "acme/widgets" "main" ⟨"blob", "a.py", "sha1", 10⟩ ∈
      persistedFiles (sync_repository sampleEnv samplePayload).2 ∧
    ("main" : String) =
      pyOrDefault samplePayload.branch (sampleEnv.metaResp.json.default_branch.getD "main") ∧
    ((mkFileDoc sampleEnv "acme/widgets" "main" ⟨"blob", "a.py", "sha1", 10⟩).content =
      (sampleEnv.blobResp
        (mkFileDoc sampleEnv "acme/widgets" "main" ⟨"blob", "a.py", "sha1", 10⟩).path
        "main").json.content ∧
     (mkFileDoc sampleEnv "acme/widgets" "main" ⟨"blob", "a.py", "sha1", 10⟩).encoding =
      pyOrDefault
        (sampleEnv.blobResp
          (mkFileDoc sampleEnv "acme/widgets" "main" ⟨"blob", "a.py", "sha1", 10⟩).path
          "main").json.encoding "utf-8" ∧
     ((sampleEnv.blobResp
        (mkFileDoc sampleEnv "acme/widgets" "main" ⟨"blob", "a.py", "sha1", 10⟩).path
        "main").json.encoding = none →
      (mkFileDoc sampleEnv "acme/widgets" "main" ⟨"blob", "a.py", "sha1", 10⟩).encoding =
        "utf-8") ∧
     (mkFileDoc sampleEnv "acme/widgets" "main" ⟨"blob", "a.py", "sha1", 10⟩).encoding ≠ "") :=
  ⟨by decide, by decide,
   filerecord_encoding_invariant sampleEnv samplePayload
     (mkFileDoc sampleEnv "acme/widgets" "main" ⟨"blob", "a.py", "sha1", 10⟩) (by decide)
     "main" (by decide)⟩

/-- C8: during a sync, file records are produced only for tree entries of
kind "blob", in the order the tree listing returned them (those whose
fetch succeeded, each built by `mkFileDoc`); the remote content fetches
are exactly one per blob entry in listing order; and an entry whose kind
is not "blob" contributes no events at all — no remote call and no
persisted record. -/
theorem sync_blob_entries_only (env : GitHubEnv) (payload : SyncRequest)
    (owner name br : String)
    (hp : parse_repo_url payload.repo_url = .ok (owner, name))
    (hm : env.metaResp.status_code = 200)
    (hbr : br = pyOrDefault payload.branch (env.metaResp.json.default_branch.getD "main"))
    (ht : (env.treeResp br).status_code = 200) :
    ∀ tree, tree = (env.treeResp br).json_tree.getD [] →
      persistedFiles (sync_repository env payload).2 =
        ((tree.filter (fun nd => nd.type == "blob")).filter
          (fun nd => (env.blobResp nd.path br).status_code == 200)).map
          (mkFileDoc env (owner ++ "/" ++ name) br) ∧
      callsOf (sync_repository env payload).2 =
        (metaUrl owner name, github_headers env.github_token payload.token) ::
          (treeUrl owner name br, github_headers env.github_token payload.token) ::
          (tree.filter (fun nd => nd.type == "blob")).map
            (fun nd => (blobUrl owner name nd.path br,
              github_headers env.github_token payload.token)) ∧
      (∀ nd : TreeNode, nd.type ≠ "blob" →
        nodeEvents env (github_headers env.github_token payload.token) owner name
          (owner ++ "/" ++ name) br nd = []) := by
  subst hbr
  intro tree htree
  subst htree
  refine ⟨?_, ?_, ?_⟩
  · rw [sync_success_eq env payload owner name hp hm ht]
    simp [persistedFiles_append, persistedFiles_cons_call, persistedFiles_cons_repo,
      persistedFiles_cons_log, persistedFiles_nil, persistedFiles_loopEvents]
  · rw [sync_success_eq env payload owner name hp hm ht]
    simp [callsOf_append, callsOf_cons_call, callsOf_cons_persist, callsOf_nil,
      callsOf_loopEvents]
  · intro nd hnd
    simp [nodeEvents, hnd]

/-- C8 witness: in the sample sync the directory entry "src" contributes
no events, and the persisted file records are exactly the ones for the
two successfully fetched blobs, in listing order. -/
theorem sync_blob_entries_only_witness :
    sampleTree = (sampleEnv.treeResp "main").json_tree.getD [] ∧
    persistedFiles (sync_repository sampleEnv samplePayload).2 =
      ((sampleTree.filter (fun nd => nd.type == "blob")).filter
        (fun nd => (sampleEnv.blobResp nd.path "main").status_code == 200)).map
        (mkFileDoc sampleEnv "acme/widgets" "main") ∧
    nodeEvents sampleEnv (github_headers sampleEnv.github_token samplePayload.token)
      "acme" "widgets" "acme/widgets" "main" ⟨"tree", "src", "sha2", 0⟩ = [] :=
  ⟨by decide, by
    have h := sync_blob_entries_only sampleEnv samplePayload "acme" "widgets" "main"
      (by decide) (by decide) (by decide) (by decide) sampleTree (by decide)
    exact h.1, by
    have h := sync_blob_entries_only sampleEnv samplePayload "acme" "widgets" "main"
      (by decide) (by decide) (by decide) (by decide) sampleTree (by decide)
    exact h.2.2 ⟨"tree", "src", "sha2", 0⟩ (by decide)⟩

/-- C9: authorization precedence — a supplied (non-empty) per-call
credential is attached as a bearer authorization header; otherwise a
configured (non-empty) ambient credential is attached; otherwise no
authorization header is sent.  Moreover every outbound remote call a sync
makes carries exactly the headers `github_headers` builds from the
ambient and per-call credentials. -/
theorem credential_precedence :
    (∀ amb tok t, tok = some t → t ≠ "" →
      github_headers amb tok =
        [("Accept", "application/vnd.github+json"), ("Authorization", "Bearer " ++ t)]) ∧
    (∀ amb tok a, (tok = none ∨ tok = some "") → amb = some a → a ≠ "" →
      github_headers amb tok =
        [("Accept", "application/vnd.github+json"), ("Authorization", "Bearer " ++ a)]) ∧
    (∀ amb tok, (tok = none ∨ tok = some "") → (amb = none ∨ amb = some "") →
      github_headers amb tok = [("Accept", "application/vnd.github+json")] ∧
      ∀ p ∈ github_headers amb tok, p.1 ≠ "Authorization") ∧
    (∀ (env : GitHubEnv) (payload : SyncRequest) (u : String) (hs : List (String × String)),
      Event.remoteCall u hs ∈ (sync_repository env payload).2 →
      hs = github_headers env.github_token payload.token) := by
  refine ⟨?_, ?_, ?_, ?_⟩
  · intro amb tok t htok hne
    simp [github_headers, pyOrOpt, htok, hne]
  · rintro amb tok a (h | h) hamb hne <;> simp [github_headers, pyOrOpt, h, hamb, hne]
  · rintro amb tok (h1 | h1) (h2 | h2) <;>
      refine ⟨by simp [github_headers, pyOrOpt, h1, h2], ?_⟩ <;>
      · intro p hp
        simp [github_headers, pyOrOpt, h1, h2] at hp
        simp [hp]
  · intro env payload u hs hmem
    cases hparse : parse_repo_url payload.repo_url with
    | error e =>
      rw [sync_parse_fail_eq env payload e hparse] at hmem
      simp at hmem
    | ok pr =>
      obtain ⟨owner, name⟩ := pr
      by_cases hm : env.metaResp.status_code = 200
      · by_cases ht : (env.treeResp
            (pyOrDefault payload.branch
              (env.metaResp.json.default_branch.getD "main"))).status_code = 200
        · rw [sync_success_eq env payload owner name hparse hm ht] at hmem
          simp at hmem
          rcases hmem with ⟨hu, hh⟩ | ⟨hu, hh⟩ | h
          · exact hh
          · exact hh
          · exact loopEvents_call_headers env _ owner name _ _ _ u hs h
        · rw [sync_tree_fail_eq env payload owner name hparse hm ht] at hmem
          simp at hmem
          rcases hmem with ⟨hu, hh⟩ | ⟨hu, hh⟩
          · exact hh
          · exact hh
      · rw [sync_meta_fail_eq env payload owner name hparse hm] at hmem
        simp at hmem
        exact hmem.2

/-- C9 witness: a non-empty per-call credential wins over the ambient one
and is attached as a bearer authorization header. -/
theorem credential_precedence_witness :
    ("t0k" : String) ≠ "" ∧
    github_headers (some "ambient") (some "t0k") =
      [("Accept", "application/vnd.github+json"), ("Authorization", "Bearer t0k")] :=
  ⟨by decide, credential_precedence.1 (some "ambient") (some "t0k") "t0k" rfl (by decide)⟩

/-- `detectFrom` returns the first entry of the mapping, in declared
order, whose extension is a suffix of the lowercased path. -/
theorem detectFrom_eq_find (pl : List Char) :
    ∀ l : List (String × String),
      detectFrom pl l = (l.find? (fun el => el.1.data.isSuffixOf pl)).map Prod.snd := by
  intro l
  induction l with
  | nil => rfl
  | cons el rest ih =>
    obtain ⟨ext, lang⟩ := el
    by_cases h : ext.data.isSuffixOf pl = true
    · rw [detectFrom, if_pos h, List.find?_cons_of_pos _ (by simpa using h)]
      rfl
    · rw [detectFrom, if_neg h, List.find?_cons_of_neg _ (by simpa using h), ih]

/-- C4: parsing fails — with the HTTP 400 "Invalid GitHub repository URL"
caller-input error — exactly when fewer than two slash-delimited segments
are obtained (for example for "not-a-valid-locator"), and a sync invoked
with such a locator aborts with that error before any remote call is made
and before anything is persisted (its event trace is empty). -/
theorem parse_invalid_reference :
    (∀ u : String, (∃ e, parse_repo_url u = .error e) ↔ (repoUrlParts u).length < 2) ∧
    (∀ u : String, (repoUrlParts u).length < 2 →
      parse_repo_url u = .error ⟨400, "Invalid GitHub repository URL"⟩) ∧
    parse_repo_url "not-a-valid-locator" = .error ⟨400, "Invalid GitHub repository URL"⟩ ∧
    (∀ (env : GitHubEnv) (payload : SyncRequest) (e : HTTPError),
      parse_repo_url payload.repo_url = .error e →
      sync_repository env payload = (.error e, [])) := by
  have key : ∀ u : String, (repoUrlParts u).length < 2 →
      parse_repo_url u = .error ⟨400, "Invalid GitHub repository URL"⟩ := by
    intro u h
    simp [parse_repo_url, h]
  refine ⟨?_, key, by decide, ?_⟩
  · intro u
    constructor
    · rintro ⟨e, he⟩
      by_contra hlen
      rcases hparts : repoUrlParts u with _ | ⟨p0, rest⟩
      · rw [hparts] at hlen
        simp at hlen
      · rcases rest with _ | ⟨p1, rest'⟩
        · rw [hparts] at hlen
          simp at hlen
        · rw [parse_repo_url] at he
          simp only [hparts] at he
          rw [if_neg (by simp)] at he
          cases he
    · intro h
      exact ⟨_, key u h⟩
  · exact fun env payload e he => sync_parse_fail_eq env payload e he

/-- C4 witness: syncing with the locator "not-a-valid-locator" aborts with
the 400 caller-input error and an empty side-effect trace. -/
theorem parse_invalid_reference_witness :
    parse_repo_url "not-a-valid-locator" = .error ⟨400, "Invalid GitHub repository URL"⟩ ∧
    sync_repository sampleEnv ⟨"not-a-valid-locator", none, none⟩ =
      (.error ⟨400, "Invalid GitHub repository URL"⟩, []) :=
  ⟨by decide,
   parse_invalid_reference.2.2.2 sampleEnv ⟨"not-a-valid-locator", none, none⟩
     ⟨400, "Invalid GitHub repository URL"⟩ (by decide)⟩

/-- C7: language classification is a case-insensitive suffix test applied
in the mapping's declared order (the first matching extension wins):
"src/App.tsx" classifies as typescript, "README.md" as markdown, and a
path matching no known suffix — such as "Makefile" — gets no
classification (`none`), not an error. -/
theorem detect_language_classification :
    detect_language "src/App.tsx" = some "typescript" ∧
    detect_language "README.md" = some "markdown" ∧
    detect_language "Makefile" = none ∧
    (∀ p : String, detect_language p =
      (EXT_LANG.find? (fun el => el.1.data.isSuffixOf (p.data.map Char.toLower))).map
        Prod.snd) ∧
    (∀ p : String,
      (∀ el ∈ EXT_LANG, ¬ el.1.data.isSuffixOf (p.data.map Char.toLower) = true) →
      detect_language p = none) := by
  refine ⟨by decide, by decide, by decide, ?_, ?_⟩
  · intro p
    rw [detect_language, detectFrom_eq_find]
  · intro p hnone
    have hfind : EXT_LANG.find?
        (fun el => el.1.data.isSuffixOf (p.data.map Char.toLower)) = none :=
      List.find?_eq_none.mpr (fun x hx => by simpa using hnone x hx)
    rw [detect_language, detectFrom_eq_find, hfind]
    rfl

/-- C7 witness: no extension of the mapping is a suffix of the lowercased
"Makefile", and the classifier returns no classification for it. -/
theorem detect_language_classification_witness :
    (∀ el ∈ EXT_LANG, ¬ el.1.data.isSuffixOf ("Makefile".data.map Char.toLower) = true) ∧
    detect_language "Makefile" = none :=
  ⟨by decide, detect_language_classification.2.2.2.2 "Makefile" (by decide)⟩

/-- C10: bare locators with a slash but fewer than two non-empty segments
parse successfully — the two-segment check counts empty slash-delimited
segments — yielding an empty owner or name instead of the
InvalidReference error. -/
theorem parse_counts_empty_segments :
    parse_repo_url "owner/" = .ok ("owner", "") ∧
    parse_repo_url "a//b" = .ok ("a", "") := by
  decide

theorem strSplit_nil_right (sep : List Char) (hsep : sep ≠ []) : strSplit sep [] = [[]] := by
  cases sep with
  | nil => exact absurd rfl hsep
  | cons a as => rfl

theorem strSplitF_succ_pos (f : Nat) (a : Char) (as s : List Char)
    (hp : (a :: as).isPrefixOf s = true) :
    strSplitF (f + 1) (a :: as) s = [] :: strSplitF f (a :: as) (s.drop (as.length + 1)) := by
  simp [strSplitF, hp]

theorem strSplitF_succ_neg (f : Nat) (a : Char) (as : List Char) (c : Char)
    (s : List Char) (hnp : ¬ (a :: as).isPrefixOf (c :: s) = true) :
    strSplitF (f + 1) (a :: as) (c :: s) = strSplitF.consHead c (strSplitF f (a :: as) s) := by
  simp [strSplitF, hnp]

theorem strSplitF_congr : ∀ (f₁ f₂ : Nat) (sep s : List Char),
    s.length < f₁ → s.length < f₂ → strSplitF f₁ sep s = strSplitF f₂ sep s := by
  intro f₁
  induction f₁ with
  | zero => intro f₂ sep s h1 h2; omega
  | succ f₁ ih =>
    intro f₂ sep s h1 h2
    cases f₂ with
    | zero => omega
    | succ f₂ =>
      cases sep with
      | nil => rfl
      | cons a as =>
        by_cases hp : (a :: as).isPrefixOf s = true
        · have hle : as.length + 1 ≤ s.length := by
            simpa using (List.isPrefixOf_iff_prefix.mp hp).length_le
          rw [strSplitF_succ_pos f₁ a as s hp, strSplitF_succ_pos f₂ a as s hp]
          congr 1
          apply ih
          · rw [List.length_drop]
            omega
          · rw [List.length_drop]
            omega
        · cases s with
          | nil => rfl
          | cons c rest =>
            have h1r : rest.length + 1 < f₁ + 1 := by simpa using h1
            have h2r : rest.length + 1 < f₂ + 1 := by simpa using h2
            rw [strSplitF_succ_neg f₁ a as c rest hp,
              strSplitF_succ_neg f₂ a as c rest hp]
            congr 1
            apply ih
            · omega
            · omega

theorem strSplit_prefix_step (sep s : List Char) (hsep : sep ≠ [])
    (hp : sep.isPrefixOf s = true) :
    strSplit sep s = [] :: strSplit sep (s.drop sep.length) := by
  cases sep with
  | nil => exact absurd rfl hsep
  | cons a as =>
    have hle : as.length + 1 ≤ s.length := by
      simpa using (List.isPrefixOf_iff_prefix.mp hp).length_le
    calc strSplit (a :: as) s
        = strSplitF (s.length + 1) (a :: as) s := rfl
      _ = [] :: strSplitF s.length (a :: as) (s.drop (as.length + 1)) :=
          strSplitF_succ_pos s.length a as s hp
      _ = [] :: strSplit (a :: as) (s.drop (as.length + 1)) := by
          congr 1
          apply strSplitF_congr
          · rw [List.length_drop]
            omega
          · rw [List.length_drop]
            omega

theorem strSplit_cons_step (sep : List Char) (c : Char) (s : List Char) (hsep : sep ≠ [])
    (hnp : ¬ sep.isPrefixOf (c :: s) = true) :
    strSplit sep (c :: s) = strSplitF.consHead c (strSplit sep s) := by
  cases sep with
  | nil => exact absurd rfl hsep
  | cons a as =>
    exact strSplitF_succ_neg (s.length + 1) a as c s hnp

theorem strSplit_no_occ (sep s : List Char) (hsep : sep ≠ [])
    (hno : ∀ t, t <:+ s → ¬ sep <+: t) : strSplit sep s = [s] := by
  induction s with
  | nil => exact strSplit_nil_right sep hsep
  | cons c rest ih =>
    have hnp : ¬ sep.isPrefixOf (c :: rest) = true := fun hp =>
      hno (c :: rest) (List.suffix_refl _) (List.isPrefixOf_iff_prefix.mp hp)
    rw [strSplit_cons_step sep c rest hsep hnp,
      ih (fun t ht => hno t (ht.trans (List.suffix_cons c rest)))]
    rfl

theorem isPrefixOf_append_self : ∀ (sep t : List Char), sep.isPrefixOf (sep ++ t) = true
  | [], _ => by simp [List.isPrefixOf]
  | a :: as, t => by simp [List.isPrefixOf, isPrefixOf_append_self as t]

theorem no_occ_single (c : Char) (s : List Char) (hc : c ∉ s) :
    ∀ t, t <:+ s → ¬ [c] <+: t :=
  fun t ht hp => hc (ht.subset (hp.subset (List.mem_singleton_self c)))

theorem strSplit_slash (o n : List Char) (ho : '/' ∉ o) (hn : '/' ∉ n) :
    strSplit ['/'] (o ++ '/' :: n) = [o, n] := by
  induction o with
  | nil =>
    rw [List.nil_append]
    rw [strSplit_prefix_step ['/'] ('/' :: n) (by decide) (by simp [List.isPrefixOf])]
    show [] :: strSplit ['/'] n = [[], n]
    rw [strSplit_no_occ ['/'] n (by decide) (no_occ_single '/' n hn)]
  | cons a o' ih =>
    have hnp : ¬ (['/'].isPrefixOf (a :: (o' ++ '/' :: n))) = true := by
      simp [List.isPrefixOf]
      intro h
      exact ho (by rw [h]; exact List.mem_cons_self a o')
    rw [List.cons_append, strSplit_cons_step ['/'] a _ (by decide) hnp,
      ih (fun h => ho (List.mem_cons_of_mem a h))]
    rfl

theorem slash_split_unique : ∀ (x₁ y₁ x₂ y₂ : List Char), '/' ∉ x₁ → '/' ∉ x₂ →
    x₁ ++ '/' :: y₁ = x₂ ++ '/' :: y₂ → x₁ = x₂ ∧ y₁ = y₂ := by
  intro x₁
  induction x₁ with
  | nil =>
    intro y₁ x₂ y₂ h1 h2 heq
    cases x₂ with
    | nil => simpa using heq
    | cons b bs =>
      simp only [List.nil_append, List.cons_append, List.cons.injEq] at heq
      exfalso
      apply h2
      rw [← heq.1]
      exact List.mem_cons_self _ _
  | cons a as ih =>
    intro y₁ x₂ y₂ h1 h2 heq
    cases x₂ with
    | nil =>
      simp only [List.nil_append, List.cons_append, List.cons.injEq] at heq
      exfalso
      apply h1
      rw [heq.1]
      exact List.mem_cons_self _ _
    | cons b bs =>
      simp only [List.cons_append, List.cons.injEq] at heq
      have hrec := ih y₁ bs y₂ (fun h => h1 (List.mem_cons_of_mem a h))
        (fun h => h2 (List.mem_cons_of_mem b h)) heq.2
      exact ⟨by rw [heq.1, hrec.1], hrec.2⟩

theorem no_github_occurrence (o n : List Char) (ho : '/' ∉ o) (hn : '/' ∉ n)
    (hns : ¬ ("github.com".data <:+ o)) :
    ∀ u, u <:+ (o ++ '/' :: n) → ¬ "github.com/".data <+: u := by
  intro u hu hp
  obtain ⟨v, hv⟩ := hp
  obtain ⟨w, hw⟩ := hu
  have hG : "github.com/".data = "github.com".data ++ ['/'] := rfl
  have hs : (w ++ "github.com".data) ++ '/' :: v = o ++ '/' :: n := by
    rw [← hw, ← hv, hG]
    simp [List.append_assoc]
  have hGd0 : List.count '/' "github.com".data = 0 := by decide
  have e1 : List.count '/' ((w ++ "github.com".data) ++ '/' :: v) =
      List.count '/' w + List.count '/' v + 1 := by
    simp [List.count_append, List.count_cons, hGd0]
    omega
  have e2 : List.count '/' (o ++ '/' :: n) = 1 := by
    simp [List.count_append, List.count_cons, List.count_eq_zero.mpr ho,
      List.count_eq_zero.mpr hn]
  rw [hs, e2] at e1
  have hcw : '/' ∉ w := List.count_eq_zero.mp (by omega)
  have hGdnm : ('/' : Char) ∉ "github.com".data := by decide
  have hwGd : '/' ∉ w ++ "github.com".data := by
    intro h
    rcases List.mem_append.mp h with h | h
    · exact hcw h
    · exact hGdnm h
  have hkey := slash_split_unique (w ++ "github.com".data) v o n hwGd ho hs
  exact hns ⟨w, hkey.1⟩

theorem strSplit_github_cons (c : Char) (s : List Char) (h : (('g' : Char) == c) = false) :
    strSplit "github.com/".data (c :: s) =
      strSplitF.consHead c (strSplit "github.com/".data s) := by
  apply strSplit_cons_step _ _ _ (by decide)
  have hG : "github.com/".data = 'g' :: "ithub.com/".data := rfl
  rw [hG]
  simp [List.isPrefixOf, h]

theorem strSplit_github_marker (t : List Char)
    (hno : ∀ u, u <:+ t → ¬ "github.com/".data <+: u) :
    strSplit "github.com/".data ("https://".data ++ ("github.com/".data ++ t)) =
      ["https://".data, t] := by
  have h1 : "https://".data ++ ("github.com/".data ++ t) =
      'h' :: 't' :: 't' :: 'p' :: 's' :: ':' :: '/' :: '/' :: ("github.com/".data ++ t) := rfl
  rw [h1,
    strSplit_github_cons 'h' _ (by decide),
    strSplit_github_cons 't' _ (by decide),
    strSplit_github_cons 't' _ (by decide),
    strSplit_github_cons 'p' _ (by decide),
    strSplit_github_cons 's' _ (by decide),
    strSplit_github_cons ':' _ (by decide),
    strSplit_github_cons '/' _ (by decide),
    strSplit_github_cons '/' _ (by decide),
    strSplit_prefix_step _ _ (by decide) (isPrefixOf_append_self _ _),
    List.drop_left,
    strSplit_no_occ _ _ (by decide) hno]
  rfl

theorem pyRstrip_append_eq (x n : List Char) (hne : n ≠ []) (hn : '/' ∉ n) :
    pyRstrip '/' (x ++ n) = x ++ n := by
  rw [pyRstrip, List.reverse_append]
  cases hr : n.reverse with
  | nil => exact absurd (List.reverse_eq_nil_iff.mp hr) hne
  | cons c cs =>
    have hc : c ∈ n := by
      apply List.mem_reverse.mp
      rw [hr]
      exact List.mem_cons_self c cs
    have hcne : ¬ ((c == '/') = true) := by
      simp only [beq_iff_eq]
      exact fun h => hn (h ▸ hc)
    rw [List.cons_append]
    simp only [List.dropWhile_cons]
    rw [if_neg hcne,
      show c :: (cs ++ x.reverse) = (c :: cs) ++ x.reverse from rfl, ← hr,
      ← List.reverse_append, List.reverse_reverse]

theorem bare_locator_data (owner name : String) :
    (owner ++ "/" ++ name).data = owner.data ++ '/' :: name.data := by
  have hs : "/".data = ['/'] := rfl
  simp [String.data_append, List.append_assoc, hs]

theorem url_locator_data (owner name : String) :
    ("https://github.com/" ++ owner ++ "/" ++ name).data =
      "https://".data ++ ("github.com/".data ++ (owner.data ++ '/' :: name.data)) := by
  have hlit : "https://github.com/".data = "https://".data ++ "github.com/".data := by decide
  have hs : "/".data = ['/'] := rfl
  simp [String.data_append, List.append_assoc, hs, hlit]

/-- C3 counterexample: for host "gitlab.com" the URL-form locator parses
to ("https:", "") — the code splits on the literal "github.com/" marker,
which does not occur — while the bare locator parses to
("acme", "widgets"), so the two parses are not identical for every
host. -/
theorem parse_url_bare_counterexample :
    parse_repo_url "https://gitlab.com/acme/widgets" = .ok ("https:", "") ∧
    parse_repo_url "acme/widgets" = .ok ("acme", "widgets") ∧
    parse_repo_url "https://gitlab.com/acme/widgets" ≠ parse_repo_url "acme/widgets" := by
  decide

/-- C3 (amended): for the host "github.com", and for every owner and name
such that the name is non-empty, neither contains a slash, and the owner
does not end in "github.com" (so that the literal marker "github.com/"
occurs exactly once in the URL), parsing the URL-form locator and parsing
the bare locator return the identical pair — namely (owner, name). -/
theorem parse_url_form_eq_bare_form (owner name : String)
    (h2 : name ≠ "")
    (h3 : '/' ∉ owner.data) (h4 : '/' ∉ name.data)
    (h5 : ¬ ("github.com".data <:+ owner.data)) :
    parse_repo_url ("https://github.com/" ++ owner ++ "/" ++ name) = .ok (owner, name) ∧
    parse_repo_url (owner ++ "/" ++ name) = .ok (owner, name) := by
  have hnd : name.data ≠ [] := by
    intro h
    apply h2
    cases name with
    | mk d =>
      subst h
      rfl
  have hno : ∀ u, u <:+ (owner.data ++ '/' :: name.data) → ¬ "github.com/".data <+: u :=
    no_github_occurrence owner.data name.data h3 h4 h5
  have hassoc : owner.data ++ '/' :: name.data = (owner.data ++ ['/']) ++ name.data := by
    simp
  have hbareParts : repoUrlParts (owner ++ "/" ++ name) = [owner.data, name.data] := by
    rw [repoUrlParts]
    by_cases hh : "http".data.isPrefixOf (owner ++ "/" ++ name).data = true
    · rw [if_pos hh, bare_locator_data, hassoc, pyRstrip_append_eq _ _ hnd h4, ← hassoc]
      rw [strSplit_no_occ _ _ (by decide) hno]
      show strSplit ['/'] (owner.data ++ '/' :: name.data) = _
      exact strSplit_slash owner.data name.data h3 h4
    · rw [if_neg hh, bare_locator_data]
      exact strSplit_slash owner.data name.data h3 h4
  have hurlParts :
      repoUrlParts ("https://github.com/" ++ owner ++ "/" ++ name) = [owner.data, name.data] := by
    have hstart :
        "http".data.isPrefixOf ("https://github.com/" ++ owner ++ "/" ++ name).data = true := by
      rw [url_locator_data,
        show "https://".data ++ ("github.com/".data ++ (owner.data ++ '/' :: name.data)) =
          "http".data ++ ("s://".data ++ ("github.com/".data ++ (owner.data ++ '/' :: name.data)))
          from rfl]
      exact isPrefixOf_append_self _ _
    rw [repoUrlParts, if_pos hstart, url_locator_data]
    have hassoc2 :
        "https://".data ++ ("github.com/".data ++ (owner.data ++ '/' :: name.data)) =
          ("https://".data ++ ("github.com/".data ++ (owner.data ++ ['/']))) ++ name.data := by
      simp
    rw [hassoc2, pyRstrip_append_eq _ _ hnd h4, ← hassoc2]
    rw [strSplit_github_marker _ hno]
    show strSplit ['/'] (owner.data ++ '/' :: name.data) = _
    exact strSplit_slash owner.data name.data h3 h4
  constructor
  · rw [parse_repo_url, hurlParts]
    rfl
  · rw [parse_repo_url, hbareParts]
    rfl

/-- C3 (amended) witness: for owner "acme" and name "widgets" both locator
shapes parse to ("acme", "widgets"). -/
theorem parse_url_form_eq_bare_form_witness :
    (("widgets" : String) ≠ "" ∧
      '/' ∉ "acme".data ∧ '/' ∉ "widgets".data ∧
      ¬ ("github.com".data <:+ "acme".data)) ∧
    parse_repo_url "https://github.com/acme/widgets" = .ok ("acme", "widgets") ∧
    parse_repo_url "acme/widgets" = .ok ("acme", "widgets") :=
  ⟨⟨by decide, by decide, by decide, by decide⟩,
   (parse_url_form_eq_bare_form "acme" "widgets" (by decide) (by decide)
     (by decide) (by decide)).1,
   (parse_url_form_eq_bare_form "acme" "widgets" (by decide) (by decide)
     (by decide) (by decide)).2⟩

